import Mathlib

/-!
Verification development for the pitchbook presentation repository.

The development shallow-embeds the two core components of the repository:

* the transcript section extractor of `frontend/src/utils/dataParser.js`
  (`parseAnalystDataFile` / `getSectionData`), including the two JavaScript
  regular expressions it uses and the behaviour of `JSON.parse` on fenced
  block bodies; and
* the workflow persistence service (`CosmosDBService`), with its remote
  backend calls modelled as an explicit outcome value and the browser
  `localStorage` entry modelled as the parsed list of workflow records.

Text is represented as `List Char`.  JavaScript numbers are represented as
rationals (`ℚ`): every JSON numeric literal denotes a rational, and none of
the properties below depends on binary floating-point rounding.
-/

namespace Pitchbook

/-- Left brace character, written via its code point. -/
def lbrace : Char := Char.ofNat 123

/-- Right brace character, written via its code point. -/
def rbrace : Char := Char.ofNat 125

/-- Whitespace class of the JavaScript regular expression `\s`: the
ECMAScript WhiteSpace and LineTerminator code points — tab, line feed,
vertical tab, form feed, carriage return, space, no-break space, the Ogham
space mark, the en-quad..hair-space range, the line and paragraph
separators, the narrow no-break space, the medium mathematical space, the
ideographic space and the byte-order mark. -/
def isWs (c : Char) : Bool :=
  c = ' ' || c = '\t' || c = '\n' || c = '\r' || c = Char.ofNat 11 ||
  c = Char.ofNat 12 || c = Char.ofNat 160 || c = Char.ofNat 0x1680 ||
  (Char.ofNat 0x2000 ≤ c && c ≤ Char.ofNat 0x200a) ||
  c = Char.ofNat 0x2028 || c = Char.ofNat 0x2029 || c = Char.ofNat 0x202f ||
  c = Char.ofNat 0x205f || c = Char.ofNat 0x3000 || c = Char.ofNat 0xfeff

/-- Does `l` start with the pattern `pat`? (`String.prototype.startsWith`
on the suffix of the text being scanned.) -/
def leadsWith : List Char → List Char → Bool
  | [], _ => true
  | _ :: _, [] => false
  | p :: ps, c :: cs => p = c && leadsWith ps cs

/-- Strip the literal pattern `pat` from the front of `l`, if present. -/
def stripLead : List Char → List Char → Option (List Char)
  | [], l => some l
  | _ :: _, [] => none
  | p :: ps, c :: cs => if p = c then stripLead ps cs else none

/-- Substring test, the model of `String.prototype.includes`. -/
def containsSub : List Char → List Char → Bool
  | [], pat => leadsWith pat []
  | c :: rest, pat => leadsWith pat (c :: rest) || containsSub rest pat

/-- First alternative of a backtracking choice that succeeds. -/
def firstSome {α β : Type} (f : α → Option β) : List α → Option β
  | [] => none
  | x :: xs =>
    match f x with
    | some r => some r
    | none => firstSome f xs

/-! ## JSON values and `JSON.parse`

The extractor feeds fenced-block bodies to `JSON.parse`.  The model below
implements the JSON grammar accepted by `JSON.parse`: a successfully parsed
body yields a `JVal`; a body `JSON.parse` would throw on yields `none`.
Object fields are kept as the parsed association list; duplicate keys are
resolved by `lookupLast` (later binding wins, as in JavaScript). -/

/-- JavaScript values produced by `JSON.parse`.  Numbers are modelled as
rationals, strings as character lists. -/
inductive JVal where
  | null : JVal
  | bool : Bool → JVal
  | num : ℚ → JVal
  | str : List Char → JVal
  | arr : List JVal → JVal
  | obj : List (List Char × JVal) → JVal

/-- Last binding of key `k` in an association list: JavaScript object
semantics, where a later duplicate key overwrites an earlier one. -/
def lookupLast (k : List Char) : List (List Char × JVal) → Option JVal
  | [] => none
  | (k', v) :: rest =>
    match lookupLast k rest with
    | some r => some r
    | none => if k' = k then some v else none

/-- Property read `v.k` as the extractor performs it: defined for objects,
`undefined` (here `none`) for every other value.  (Reading a property of
`null` throws in JavaScript; in the extractor that throw is caught by the
surrounding per-block `try`, so the observable outcome coincides with the
`none` the model returns.) -/
def getField (k : List Char) : JVal → Option JVal
  | .obj fields => lookupLast k fields
  | _ => none

/-- JSON whitespace accepted by `JSON.parse` between tokens. -/
def isJsonWs (c : Char) : Bool :=
  c = ' ' || c = '\t' || c = '\n' || c = '\r'

/-- Skip JSON token whitespace. -/
def skipWsJ (l : List Char) : List Char := l.dropWhile isJsonWs

/-- Decimal digit test. -/
def isDigit (c : Char) : Bool := '0' ≤ c && c ≤ '9'

/-- Numeric value of a decimal digit character. -/
def digitVal (c : Char) : Nat := c.toNat - 48

/-- Natural number denoted by a digit string (most significant first). -/
def natOfDigits (l : List Char) : Nat :=
  l.foldl (fun acc c => acc * 10 + digitVal c) 0

/-- Hexadecimal digit test. -/
def isHexDigit (c : Char) : Bool :=
  isDigit c || ('a' ≤ c && c ≤ 'f') || ('A' ≤ c && c ≤ 'F')

/-- Value of a hexadecimal digit character. -/
def hexVal (c : Char) : Nat :=
  if isDigit c then digitVal c
  else if 'a' ≤ c && c ≤ 'f' then c.toNat - 87
  else c.toNat - 55

/-- Natural number denoted by a hex digit string. -/
def natOfHex (l : List Char) : Nat :=
  l.foldl (fun acc c => acc * 16 + hexVal c) 0

/-- Single-character JSON string escapes. -/
def escChar (c : Char) : Option Char :=
  if c = '"' then some '"'
  else if c = '\\' then some '\\'
  else if c = '/' then some '/'
  else if c = 'b' then some (Char.ofNat 8)
  else if c = 'f' then some (Char.ofNat 12)
  else if c = 'n' then some '\n'
  else if c = 'r' then some '\r'
  else if c = 't' then some '\t'
  else none

/-- Parse the remainder of a JSON string literal (the opening quote has been
consumed); returns the decoded characters and the rest of the input.
`JSON.parse` rejects raw control characters inside strings.  A `\u` escape
denoting a lone surrogate is outside `Char`'s scalar range and is mapped by
`Char.ofNat` to `\0`; no input in this development uses `\u` escapes. -/
def parseStrBody : List Char → Option (List Char × List Char)
  | [] => none
  | c :: rest =>
    if c = '"' then some ([], rest)
    else if c = '\\' then
      match rest with
      | [] => none
      | e :: rest2 =>
        match escChar e with
        | some ch =>
          match parseStrBody rest2 with
          | some (s, r) => some (ch :: s, r)
          | none => none
        | none =>
          if e = 'u' then
            match rest2 with
            | h1 :: h2 :: h3 :: h4 :: rest3 =>
              if isHexDigit h1 && isHexDigit h2 && isHexDigit h3 && isHexDigit h4 then
                match parseStrBody rest3 with
                | some (s, r) =>
                  some (Char.ofNat (natOfHex [h1, h2, h3, h4]) :: s, r)
                | none => none
              else none
            | _ => none
          else none
    else if c.toNat < 32 then none
    else
      match parseStrBody rest with
      | some (s, r) => some (c :: s, r)
      | none => none

/-- Parse a JSON number at the front of the input (JSON grammar:
`-? (0 | [1-9][0-9]*) (. [0-9]+)? ([eE][+-]?[0-9]+)?`). -/
def parseNum (l : List Char) : Option (ℚ × List Char) :=
  let (neg, l1) :=
    match l with
    | '-' :: r => (true, r)
    | _ => (false, l)
  match l1 with
  | [] => none
  | c :: _ =>
    if ¬ isDigit c then none
    else
      let intDigits := if c = '0' then ['0'] else l1.takeWhile isDigit
      let l2 := l1.drop intDigits.length
      let (fracDigits, fracOk, l3) :=
        match l2 with
        | '.' :: r =>
          let fd := r.takeWhile isDigit
          (fd, !fd.isEmpty, r.drop fd.length)
        | _ => ([], true, l2)
      if ¬ fracOk then none
      else
        let (expOk, expVal, l4) :=
          match l3 with
          | e :: r =>
            if e = 'e' ∨ e = 'E' then
              let (eneg, r1) :=
                match r with
                | '+' :: r' => (false, r')
                | '-' :: r' => (true, r')
                | _ => (false, r)
              let ed := r1.takeWhile isDigit
              if ed = [] then (false, (0 : ℤ), l3)
              else
                (true, (if eneg then -(natOfDigits ed : ℤ) else (natOfDigits ed : ℤ)), r1.drop ed.length)
            else (true, 0, l3)
          | [] => (true, 0, l3)
        if ¬ expOk then none
        else
          let mantissa : ℕ :=
            natOfDigits intDigits * 10 ^ fracDigits.length + natOfDigits fracDigits
          let numer : ℤ := if neg then -(mantissa : ℤ) else (mantissa : ℤ)
          let v : ℚ :=
            if 0 ≤ expVal then mkRat (numer * (10 : ℤ) ^ expVal.toNat) (10 ^ fracDigits.length)
            else mkRat numer (10 ^ fracDigits.length * 10 ^ (-expVal).toNat)
          some (v, l4)

mutual

/-- Parse a JSON value at the front of the input (leading whitespace is
skipped).  `fuel` bounds the recursion: along any call path, a unit of fuel
is spent by a `parseVal` entry (at a value's first character), by a
`parseMembers`/`parseElems` entry and its worker's entry (at a `{` or `[`
character), or by a worker's comma step (at a `,` character) — at most
three units per input character, so the `3 * length + 3` supplied by
`jsonParse` always suffices. -/
def parseVal : Nat → List Char → Option (JVal × List Char)
  | 0, _ => none
  | fuel + 1, l =>
    let l := skipWsJ l
    match l with
    | [] => none
    | c :: rest =>
      if c = '"' then
        match parseStrBody rest with
        | some (s, r) => some (.str s, r)
        | none => none
      else if c = lbrace then parseMembers fuel (skipWsJ rest) true
      else if c = '[' then parseElems fuel (skipWsJ rest) true
      else if leadsWith ("true".data) l then some (.bool true, l.drop 4)
      else if leadsWith ("false".data) l then some (.bool false, l.drop 5)
      else if leadsWith ("null".data) l then some (.null, l.drop 4)
      else
        match parseNum l with
        | some (q, r) => some (.num q, r)
        | none => none

/-- Parse object members after the opening brace; `first` is true when no
member has been consumed yet (so a closing brace is allowed immediately). -/
def parseMembers : Nat → List Char → Bool → Option (JVal × List Char)
  | 0, _, _ => none
  | fuel + 1, l, first => parseMembersCore fuel l first []

/-- Worker for `parseMembers`, accumulating parsed fields in order. -/
def parseMembersCore : Nat → List Char → Bool → List (List Char × JVal) →
    Option (JVal × List Char)
  | 0, _, _, _ => none
  | fuel + 1, l, first, acc =>
    match l with
    | [] => none
    | c :: rest =>
      if c = rbrace ∧ first then some (.obj acc.reverse, rest)
      else if c = '"' then
        match parseStrBody rest with
        | none => none
        | some (k, r1) =>
          match skipWsJ r1 with
          | ':' :: r2 =>
            match parseVal fuel r2 with
            | none => none
            | some (v, r3) =>
              match skipWsJ r3 with
              | ',' :: r4 => parseMembersCore fuel (skipWsJ r4) false (acc ++ [(k, v)])
              | c2 :: r4 =>
                if c2 = rbrace then some (.obj (acc ++ [(k, v)]), r4) else none
              | [] => none
          | _ => none
      else none

/-- Parse array elements after the opening bracket. -/
def parseElems : Nat → List Char → Bool → Option (JVal × List Char)
  | 0, _, _ => none
  | fuel + 1, l, first => parseElemsCore fuel l first []

/-- Worker for `parseElems`. -/
def parseElemsCore : Nat → List Char → Bool → List JVal → Option (JVal × List Char)
  | 0, _, _, _ => none
  | fuel + 1, l, first, acc =>
    match l with
    | [] => none
    | c :: rest =>
      if c = ']' ∧ first then some (.arr acc.reverse, rest)
      else
        match parseVal fuel l with
        | none => none
        | some (v, r1) =>
          match skipWsJ r1 with
          | ',' :: r2 => parseElemsCore fuel r2 false (acc ++ [v])
          | ']' :: r2 => some (.arr (acc ++ [v]), r2)
          | _ => none

end

/-- The model of `JSON.parse`: parse one value and require only whitespace
to follow; a body `JSON.parse` throws on yields `none`.  The fuel
`3 * length + 3` strictly exceeds the recursion bound of `parseVal` (at
most three fuel units are spent per input character), so the fuel never
runs out on any input. -/
def jsonParse (l : List Char) : Option JVal :=
  match parseVal (3 * l.length + 3) l with
  | some (v, rest) => if skipWsJ rest = [] then some v else none
  | none => none

/-! ## JavaScript coercions used by the extractor

The sections-2-to-8 loop evaluates `parsed.section >= 2 && parsed.section <= 8`
(relational comparison, which applies `ToNumber`) and then builds the object
key with a template literal (which applies `ToString`).  Both coercions are
modelled below for the values `JSON.parse` can produce. -/

/-- Digit-string worker; `fuel` bounds the digit count. -/
def natStrAux : Nat → Nat → List Char → List Char
  | 0, _, acc => acc
  | fuel + 1, n, acc =>
    if n < 10 then Char.ofNat (48 + n) :: acc
    else natStrAux fuel (n / 10) (Char.ofNat (48 + n % 10) :: acc)

/-- Decimal representation of a natural number. -/
def natStr (n : Nat) : List Char := natStrAux (n + 1) n []

/-- Decimal representation of an integer. -/
def intStr (i : ℤ) : List Char :=
  if i < 0 then '-' :: natStr i.natAbs else natStr i.toNat

/-- Fractional digits of `r / d` (long division), truncated at `fuel`
digits.  JavaScript prints the shortest round-tripping decimal of the
float64 value; the model prints the exact expansion of the rational,
truncated.  The only property consumed downstream is that a non-integer
prints with a decimal point, which both agree on. -/
def fracDigitsAux : Nat → Nat → Nat → List Char
  | 0, _, _ => []
  | fuel + 1, r, d =>
    if r = 0 then []
    else Char.ofNat (48 + r * 10 / d) :: fracDigitsAux fuel (r * 10 % d) d

/-- The model of JavaScript `ToString` on a number. -/
def jsNumToString (q : ℚ) : List Char :=
  if q.den = 1 then intStr q.num
  else
    (if q < 0 then ['-'] else []) ++
      natStr (q.num.natAbs / q.den) ++
        '.' :: fracDigitsAux 20 (q.num.natAbs % q.den) q.den

/-- Comma join of element strings, the behaviour of `Array.prototype.toString`. -/
def joinComma : List (List Char) → List Char
  | [] => []
  | [x] => x
  | x :: xs => x ++ ',' :: joinComma xs

/-- Worker for `jsToString`; `fuel` bounds array nesting (array elements that
are `null` stringify to the empty string, as in JavaScript). -/
def jsToStringF (fuel : Nat) (v : JVal) : List Char :=
  match v with
  | .null => "null".data
  | .bool true => "true".data
  | .bool false => "false".data
  | .num q => jsNumToString q
  | .str s => s
  | .obj _ => "[object Object]".data
  | .arr xs =>
    match fuel with
    | 0 => []
    | f + 1 =>
      joinComma (xs.map fun w =>
        match w with
        | JVal.null => []
        | w' => jsToStringF f w')

/- `jsToStringF` is consumed with `fuel` set to the length of the text the
value was parsed from: each array nesting level consumes at least one input
character, so that fuel never runs out. -/

/-- Trim the whitespace JavaScript `ToNumber` ignores around a string. -/
def trimWs (l : List Char) : List Char :=
  ((l.dropWhile isWs).reverse.dropWhile isWs).reverse

/-- Binary digit test. -/
def isBinDigit (c : Char) : Bool := c = '0' || c = '1'

/-- Octal digit test. -/
def isOctDigit (c : Char) : Bool := '0' ≤ c && c ≤ '7'

/-- Natural number denoted by a binary digit string. -/
def natOfBin (l : List Char) : Nat :=
  l.foldl (fun acc c => acc * 2 + digitVal c) 0

/-- Natural number denoted by an octal digit string. -/
def natOfOct (l : List Char) : Nat :=
  l.foldl (fun acc c => acc * 8 + digitVal c) 0

/-- Unsigned decimal numeric literal of the `StringNumericLiteral` grammar:
digits, optional fraction, optional exponent; the whole input must be
consumed. -/
def strDecLit (r : List Char) : Option ℚ :=
  let d1 := r.takeWhile isDigit
  let r1 := r.drop d1.length
  let (d2, r2, fracOk) :=
    match r1 with
    | '.' :: rr =>
      let fd := rr.takeWhile isDigit
      (fd, rr.drop fd.length, true)
    | _ => ([], r1, true)
  if ¬ fracOk ∨ (d1 = [] ∧ d2 = []) then none
  else
    let (expVal, r3, expOk) :=
      match r2 with
      | e :: rr =>
        if e = 'e' ∨ e = 'E' then
          let (eneg, rr1) :=
            match rr with
            | '+' :: rr' => (false, rr')
            | '-' :: rr' => (true, rr')
            | _ => (false, rr)
          let ed := rr1.takeWhile isDigit
          if ed = [] then ((0 : ℤ), r2, false)
          else
            ((if eneg then -(natOfDigits ed : ℤ) else (natOfDigits ed : ℤ)),
              rr1.drop ed.length, true)
        else ((0 : ℤ), r2, true)
      | [] => ((0 : ℤ), r2, true)
    if ¬ expOk ∨ ¬ r3 = [] then none
    else
      let mantissa : ℕ := natOfDigits d1 * 10 ^ d2.length + natOfDigits d2
      if 0 ≤ expVal then
        some (mkRat ((mantissa : ℤ) * (10 : ℤ) ^ expVal.toNat) (10 ^ d2.length))
      else some (mkRat (mantissa : ℤ) (10 ^ d2.length * 10 ^ (-expVal).toNat))

/-- The model of JavaScript `ToNumber` on a string (`none` stands for `NaN`).
The literals `Infinity` and `-Infinity` are collapsed into the `none` case:
the only consumer below is the range test `2 <= n <= 8`, on which an infinity
and `NaN` agree (both fail it). -/
def jsStrToNumber (s : List Char) : Option ℚ :=
  let t := trimWs s
  if t.isEmpty then some 0
  else if leadsWith ("0x".data) t || leadsWith ("0X".data) t then
    let h := t.drop 2
    if !h.isEmpty && h.all isHexDigit then some (natOfHex h : ℚ) else none
  else if leadsWith ("0b".data) t || leadsWith ("0B".data) t then
    let h := t.drop 2
    if !h.isEmpty && h.all isBinDigit then some (natOfBin h : ℚ) else none
  else if leadsWith ("0o".data) t || leadsWith ("0O".data) t then
    let h := t.drop 2
    if !h.isEmpty && h.all isOctDigit then some (natOfOct h : ℚ) else none
  else
    let (neg, r) :=
      match t with
      | '-' :: rr => (true, rr)
      | '+' :: rr => (false, rr)
      | _ => (false, t)
    if r = "Infinity".data then none
    else
      match strDecLit r with
      | some q => some (if neg then -q else q)
      | none => none

/-- The model of JavaScript `ToNumber` applied to a `JSON.parse` result
(`none` stands for `NaN`).  An array is converted through its string form
(arrays have no own `valueOf`), an object yields `NaN`.  `fuel` is passed on
to `jsToStringF` for the array case. -/
def jsToNumberF (fuel : Nat) : JVal → Option ℚ
  | .null => some 0
  | .bool b => some (if b then 1 else 0)
  | .num q => some q
  | .str s => jsStrToNumber s
  | .arr xs => jsStrToNumber (jsToStringF fuel (.arr xs))
  | .obj _ => none

/-- JavaScript `>=` against a number constant after `ToNumber` coercion
(`NaN` compares false). -/
def jsGe (x : Option ℚ) (c : ℚ) : Bool :=
  match x with
  | some q => c ≤ q
  | none => false

/-- JavaScript `<=` against a number constant after `ToNumber` coercion. -/
def jsLe (x : Option ℚ) (c : ℚ) : Bool :=
  match x with
  | some q => q ≤ c
  | none => false

/-- JavaScript falsiness of a possibly-undefined value (`none` is
`undefined`).  `JSON.parse` never yields `NaN`, so numbers are falsy exactly
when zero. -/
def jsFalsy : Option JVal → Bool
  | none => true
  | some .null => true
  | some (.bool b) => !b
  | some (.num q) => q = 0
  | some (.str s) => s.isEmpty
  | some (.arr _) => false
  | some (.obj _) => false

/-! ## The fenced-block scanner

`dataParser.js` finds candidate blocks for sections 2-8 with

  `txtContent.matchAll(/` + three backticks + `(?:json)?\s*\n([\s\S]*?)\n` + three backticks + `/g)`

The functions below implement that regular expression with JavaScript
backtracking semantics: the optional literal `json` is taken when present
(when the literal is present, declining it can never lead to a match, since
`\s*\n` cannot start at the letter `j`); `\s*\n` consumes a whitespace run
ending at a newline, preferring the longest such run, and backtracks to
earlier newlines of the run when the rest of the pattern fails; the lazy
body group stops at the first following newline-plus-three-backticks; and
`matchAll` resumes scanning after the end of each match. -/

/-- Lazy body group: split the input at the first occurrence of a newline
followed by three backticks, returning the body and the text after the
closing fence. -/
def findClose : List Char → Option (List Char × List Char)
  | [] => none
  | c :: rest =>
    if leadsWith ("\n```".data) (c :: rest) then some ([], rest.drop 3)
    else
      match findClose rest with
      | some (b, r) => some (c :: b, r)
      | none => none

/-- Suffixes of the input after consuming `\s*\n`, listed from the shortest
whitespace run to the longest; the regex engine prefers the longest, so
callers try `(nlSuffixes l).reverse` in order. -/
def nlSuffixes : List Char → List (List Char)
  | [] => []
  | c :: rest =>
    if isWs c then (if c = '\n' then [rest] else []) ++ nlSuffixes rest
    else []

/-- Try to match the whole-document scanner pattern at the current position;
on success return the captured body and the text after the match. -/
def fenceMatchAt (l : List Char) : Option (List Char × List Char) :=
  match stripLead ("```".data) l with
  | none => none
  | some s1 =>
    let s2 :=
      match stripLead ("json".data) s1 with
      | some t => t
      | none => s1
    firstSome findClose (nlSuffixes s2).reverse

/-- Worker for `scanAll`; `fuel` bounds the number of scan steps (each step
advances by at least one character). -/
def scanAllAux : Nat → List Char → List (List Char)
  | 0, _ => []
  | _, [] => []
  | fuel + 1, c :: rest =>
    match fenceMatchAt (c :: rest) with
    | some (body, after) => body :: scanAllAux fuel after
    | none => scanAllAux fuel rest

/-- All bodies captured by the global scanner regex over the transcript, in
match order (the model of the `matchAll` loop). -/
def scanAll (t : List Char) : List (List Char) :=
  scanAllAux (t.length + 1) t

/-- The literal agent tag of the section-1 pattern. -/
def agentTag : List Char := "[FinancialDocumentsAgent]".data

/-- Suffix following the first occurrence of the agent tag, if any. -/
def findTagAfter : List Char → Option (List Char)
  | [] => none
  | c :: rest =>
    match stripLead agentTag (c :: rest) with
    | some r => some r
    | none => findTagAfter rest

/-- Try to match three backticks plus the literal `json`, then `\s*\n`, then
the lazy body group, at the current position; return the captured body. -/
def fenceJsonAt (l : List Char) : Option (List Char) :=
  match stripLead ("```json".data) l with
  | none => none
  | some s1 =>
    match firstSome findClose (nlSuffixes s1).reverse with
    | some (b, _) => some b
    | none => none

/-- Search forward for the first position where `fenceJsonAt` succeeds (the
lazy `[\s\S]*?` between the agent tag and the fence). -/
def sec1Scan : List Char → Option (List Char)
  | [] => none
  | c :: rest =>
    match fenceJsonAt (c :: rest) with
    | some b => some b
    | none => sec1Scan rest

/-- Captured group of the section-1 regex
`[FinancialDocumentsAgent] ... lazy gap ... json fence`, the model of
`txtContent.match(section1Pattern)`. -/
def sec1Match (t : List Char) : Option (List Char) :=
  match findTagAfter t with
  | some afterTag => sec1Scan afterTag
  | none => none

/-! ## The extractor pipeline -/

/-- The validator-template sentinel the section-1 path rejects. -/
def sentinel : List Char := "OUTPUT STRUCTURE".data

/-- Strict-equality test `parsed.section === 1` of the section-1 path (no
coercion: only the number `1` passes). -/
def sectionIsOne (v : JVal) : Bool :=
  match getField ("section".data) v with
  | some (.num q) => q = 1
  | _ => false

/-- Section-1 extraction: take the captured body of the section-1 regex,
reject it if it contains the sentinel, otherwise parse it as JSON and accept
it only when `parsed.section === 1`.  Parse failures are caught and yield
`none` (the slot stays absent). -/
def sec1Extract (t : List Char) : Option JVal :=
  match sec1Match t with
  | none => none
  | some body =>
    if containsSub body sentinel then none
    else
      match jsonParse body with
      | none => none
      | some v => if sectionIsOne v then some v else none

/-- Model of `jsonText.indexOf(lbrace)` followed by `substring`: the suffix
of the body starting at its first left brace, or `none` when the body has no
brace (the loop then skips the block). -/
def braceStrip : List Char → Option (List Char)
  | [] => none
  | c :: rest => if c = lbrace then some (c :: rest) else braceStrip rest

/-- Object key built by the template literal `section${sectionNum}`. -/
def secKeyOf (fuel : Nat) (sv : JVal) : List Char :=
  "section".data ++ jsToStringF fuel sv

/-- Fixed key of slot `k`. -/
def secKey (k : Nat) : List Char := "section".data ++ natStr k

/-- Per-candidate-block work of the sections-2-to-8 loop: strip to the first
brace, `JSON.parse`, read `parsed.section`, and when the range gate
`sectionNum >= 2 && sectionNum <= 8` passes, produce the target object key
and the parsed value.  Every failure yields `none` (the block is skipped). -/
def blockFill (body : List Char) : Option (List Char × JVal) :=
  match braceStrip body with
  | none => none
  | some aj =>
    match jsonParse aj with
    | none => none
    | some v =>
      match getField ("section".data) v with
      | none => none
      | some sv =>
        if jsGe (jsToNumberF aj.length sv) 2 && jsLe (jsToNumberF aj.length sv) 8 then
          some (secKeyOf aj.length sv, v)
        else none

/-- The mutable `sections` object of `parseAnalystDataFile`: eight optional
slots, all initially `null`. -/
structure Sections where
  s1 : Option JVal
  s2 : Option JVal
  s3 : Option JVal
  s4 : Option JVal
  s5 : Option JVal
  s6 : Option JVal
  s7 : Option JVal
  s8 : Option JVal

/-- The all-absent section document. -/
def emptySections : Sections := ⟨none, none, none, none, none, none, none, none⟩

/-- Slot read by index (1 to 8). -/
def Sections.get (s : Sections) : Nat → Option JVal
  | 1 => s.s1
  | 2 => s.s2
  | 3 => s.s3
  | 4 => s.s4
  | 5 => s.s5
  | 6 => s.s6
  | 7 => s.s7
  | 8 => s.s8
  | _ => none

/-- Map an object key onto a slot index, when it is one of the eight fixed
slot keys.  Writes to any other key land on properties the display layer
never reads and are dropped by the model. -/
def keyIdx (key : List Char) : Option Nat :=
  if key = secKey 1 then some 1
  else if key = secKey 2 then some 2
  else if key = secKey 3 then some 3
  else if key = secKey 4 then some 4
  else if key = secKey 5 then some 5
  else if key = secKey 6 then some 6
  else if key = secKey 7 then some 7
  else if key = secKey 8 then some 8
  else none

/-- Write `v` into slot `i` only when the slot is still empty (the
`if (!sections[sectionKey])` guard; stored values are parsed objects, which
are never falsy). -/
def setSlotIdx (s : Sections) (i : Nat) (v : JVal) : Sections :=
  match i with
  | 1 => if s.s1.isNone then { s with s1 := some v } else s
  | 2 => if s.s2.isNone then { s with s2 := some v } else s
  | 3 => if s.s3.isNone then { s with s3 := some v } else s
  | 4 => if s.s4.isNone then { s with s4 := some v } else s
  | 5 => if s.s5.isNone then { s with s5 := some v } else s
  | 6 => if s.s6.isNone then { s with s6 := some v } else s
  | 7 => if s.s7.isNone then { s with s7 := some v } else s
  | 8 => if s.s8.isNone then { s with s8 := some v } else s
  | _ => s

/-- Slot assignment `sections[sectionKey] = parsed` guarded by emptiness. -/
def setSlot (s : Sections) (key : List Char) (v : JVal) : Sections :=
  match keyIdx key with
  | some i => setSlotIdx s i v
  | none => s

/-- One iteration of the sections-2-to-8 `for` loop. -/
def processBlock (s : Sections) (body : List Char) : Sections :=
  match blockFill body with
  | some kv => setSlot s kv.1 kv.2
  | none => s

/-- The whole sections-2-to-8 loop over the scanned bodies. -/
def fillLoop : List (List Char) → Sections → Sections
  | [], s => s
  | b :: bs, s => fillLoop bs (processBlock s b)

/-- State of the `sections` object after the section-1 step and before the
sections-2-to-8 loop. -/
def extractInit (t : List Char) : Sections :=
  match sec1Extract t with
  | some v => { emptySections with s1 := some v }
  | none => emptySections

/-- Section document computed by `parseAnalystDataFile` from a fetched
transcript text (a total function: parse-level failures never escape). -/
def extractSections (t : List Char) : Sections :=
  fillLoop (scanAll t) (extractInit t)

/-! ## The module cache

`dataParser.js` memoizes the computed `{ sections }` object in the
module-level binding `cachedData` (initially `null`); the cache state is
modelled as `Option Sections`.  The module exports exactly two operations,
`parseAnalystDataFile` and `getSectionData`; neither writes `null` back to
`cachedData`, and there is no other access to it. -/

/-- One call of `parseAnalystDataFile`, given the transcript text `t` the
fetch would return: on a hit return the cache unchanged, otherwise parse and
fill the cache.  Returns the next cache state and the returned document. -/
def parseCall (t : List Char) : Option Sections → Option Sections × Sections
  | some d => (some d, d)
  | none => (some (extractSections t), extractSections t)

/-- The operations exported by the parser module. -/
inductive ParserApi where
  | parseFile : List Char → ParserApi
  | getSection : List Char → Nat → ParserApi

/-- Effect of one exported call on the module cache (`getSectionData` simply
calls `parseAnalystDataFile` and projects one slot). -/
def apiStep : ParserApi → Option Sections → Option Sections
  | .parseFile t, c => (parseCall t c).1
  | .getSection t _, c => (parseCall t c).1

/-! ## The workflow store (`CosmosDBService`)

The service tries the remote backend first and falls back to the browser
`localStorage` entry `pitchbook_workflows` on any failure.  The model makes
both explicit:

* each remote call's outcome is an input of the operation — a backend
  response with `success: true`, or a failure (covering a thrown `fetch`, a
  non-JSON body, and a response with `success: false`, all of which reach
  the same `catch` block);
* the local store is the parsed array held in `pitchbook_workflows`, passed
  and returned explicitly (`JSON.parse` after `JSON.stringify` of a value
  that itself came from `JSON.parse` is the identity, so the serialization
  round-trip is dropped; the serialization-error branches, which the source
  only logs, are outside the model);
* `new Date().toISOString()` and `Math.random()` results are the explicit
  inputs `now`, `date` and `rand`.

Workflow records and messages are `JVal` objects, so the `...spread`
construction of `saveToLocalStorage` is ordinary list append (later binding
wins on lookup, as in JavaScript). -/

/-- Identifier built by `generateWorkflowId` from the date stamp and the
random suffix. -/
def genId (date rand : List Char) : List Char :=
  ("workflow-".data) ++ date ++ ("-".data) ++ rand

/-- Strict-equality test `w.id === workflowId` used by the local lookups
(only a string field can compare equal to the identifier string). -/
def idEq (w : JVal) (wid : List Char) : Bool :=
  match getField ("id".data) w with
  | some (.str s) => s = wid
  | _ => false

/-- The `workflows.find(w => w.id === workflowId)` lookup of
`getFromLocalStorage`. -/
def findWf (wid : List Char) : List JVal → Option JVal
  | [] => none
  | w :: rest => if idEq w wid then some w else findWf wid rest

/-- The `findIndex` / `workflows[index] = updatedWorkflow` rewrite of
`updateInLocalStorage`: replace the first record whose `id` matches, leave
the store unchanged when none does. -/
def replaceWf (wid : List Char) (w' : JVal) : List JVal → List JVal
  | [] => []
  | w :: rest => if idEq w wid then w' :: rest else w :: replaceWf wid w' rest

/-- Drop every binding of key `k`. -/
def removeKey (k : List Char) : List (List Char × JVal) → List (List Char × JVal)
  | [] => []
  | (k', v) :: rest =>
    if k' = k then removeKey k rest else (k', v) :: removeKey k rest

/-- Property write `obj.k = v` on an object's field list: the single slot
for `k` now holds `v`.  (The model normalizes the key's position; only
`lookupLast` observes the list.) -/
def setField (fields : List (List Char × JVal)) (k : List Char) (v : JVal) :
    List (List Char × JVal) :=
  removeKey k fields ++ [(k, v)]

/-- Field list of a record known to be an object (local records found by
`idEq` are always objects). -/
def wFields : JVal → List (List Char × JVal)
  | .obj fs => fs
  | _ => []

/-- The synthesized defaults of `saveToLocalStorage`'s document literal, in
source order, before the caller's fields are spread over them. -/
def defaultFields (wid now : List Char) : List (List Char × JVal) :=
  [("id".data, .str wid), ("workflowId".data, .str wid),
   ("createdAt".data, .str now), ("status".data, .str ("in_progress".data)),
   ("messages".data, .arr [])]

/-- `saveToLocalStorage`: synthesize an identifier, build the document by
spreading the caller's fields over the defaults, append it to the stored
array, and return the synthesized identifier. -/
def saveToLocalStorage (wf : List (List Char × JVal)) (date rand now : List Char)
    (store : List JVal) : List Char × List JVal :=
  let wid := genId date rand
  let doc := JVal.obj (defaultFields wid now ++ wf)
  (wid, store ++ [doc])

/-- Outcome of the remote `POST /api/workflows` as seen through the
`try` block: `ok wid` is a parsed response with `success: true` carrying
`workflowId = wid`; `err` is everything the `catch` receives. -/
inductive RemoteCreate where
  | err : RemoteCreate
  | ok : List Char → RemoteCreate

/-- `createWorkflow`: return the backend's identifier when the remote call
succeeds, otherwise persist locally and return the synthesized identifier.
The result is the pair `(success, workflowId)` of the returned object,
together with the updated local store. -/
def createWorkflow (remote : RemoteCreate) (wf : List (List Char × JVal))
    (date rand now : List Char) (store : List JVal) :
    (Bool × List Char) × List JVal :=
  match remote with
  | .ok wid => ((true, wid), store)
  | .err =>
    let p := saveToLocalStorage wf date rand now store
    ((true, p.1), p.2)

/-- Outcome of a remote call whose fallback only needs to know whether the
`try` block completed: `ok` is a parsed response with `success: true`. -/
inductive RemoteAck where
  | err : RemoteAck
  | ok : RemoteAck

/-- Result of `addMessage`: the returned `success` flag and the updated
store, or `thrown` when the fallback itself throws (a found record whose
`messages` field is a truthy non-array has no `push`). -/
inductive AddOut where
  | thrown : AddOut
  | res : Bool → List JVal → AddOut

/-- The message object `{...message, timestamp: message.timestamp || now}`
appended by the `addMessage` fallback. -/
def stampMsg (msg : List (List Char × JVal)) (now : List Char) :
    List (List Char × JVal) :=
  let ts :=
    match lookupLast ("timestamp".data) msg with
    | some v => if jsFalsy (some v) then JVal.str now else v
    | none => JVal.str now
  msg ++ [(("timestamp".data), ts)]

/-- The `if (!workflow.messages) workflow.messages = []` defaulting step of
the `addMessage` fallback. -/
def normMessages (fs : List (List Char × JVal)) : List (List Char × JVal) :=
  if jsFalsy (lookupLast ("messages".data) fs) then
    setField fs ("messages".data) (.arr [])
  else fs

/-- The `catch` branch of `addMessage`: load the record from the local
store, default a falsy `messages` field to `[]`, push the stamped message,
and rewrite the record; report `success: false` when the record is absent. -/
def appendFallback (wid : List Char) (msg : List (List Char × JVal))
    (now : List Char) (store : List JVal) : AddOut :=
  match findWf wid store with
  | none => .res false store
  | some w =>
    let fs1 := normMessages (wFields w)
    match lookupLast ("messages".data) fs1 with
    | some (.arr ms) =>
      let fs2 := setField fs1 ("messages".data) (.arr (ms ++ [.obj (stampMsg msg now)]))
      .res true (replaceWf wid (.obj fs2) store)
    | _ => .thrown

/-- `addMessage`: remote append when it succeeds, otherwise the local
fallback. -/
def addMessage (remote : RemoteAck) (wid : List Char)
    (msg : List (List Char × JVal)) (now : List Char) (store : List JVal) :
    AddOut :=
  match remote with
  | .ok => .res true store
  | .err => appendFallback wid msg now store

/-- The `catch` branch of `updateWorkflowStatus`: overwrite `status`, stamp
`completedAt`, rewrite the record; report `success: false` when the record
is absent. -/
def updateStatusFallback (wid status now : List Char) (store : List JVal) :
    Bool × List JVal :=
  match findWf wid store with
  | none => (false, store)
  | some w =>
    let fs := wFields w
    let fs2 := setField (setField fs ("status".data) (.str status))
      ("completedAt".data) (.str now)
    (true, replaceWf wid (.obj fs2) store)

/-- `updateWorkflowStatus`: remote update when it succeeds, otherwise the
local fallback. -/
def updateWorkflowStatus (remote : RemoteAck) (wid status now : List Char)
    (store : List JVal) : Bool × List JVal :=
  match remote with
  | .ok => (true, store)
  | .err => updateStatusFallback wid status now store

/-- Outcome of the remote `GET /api/workflows/:id`: a response with
`success: true` carries the workflow document; everything else reaches the
`catch`. -/
inductive RemoteGet where
  | err : RemoteGet
  | ok : JVal → RemoteGet

/-- `getWorkflow`: the remote document when the call succeeds, otherwise the
local lookup (`none` is the `undefined` of a missed `find`). -/
def getWorkflow (remote : RemoteGet) (wid : List Char) (store : List JVal) :
    Option JVal :=
  match remote with
  | .ok w => some w
  | .err => findWf wid store

/-! ## Specification-side characterizations and concrete inputs

`firstHit` restates, directly over the scanned body list, the "first match
wins" discipline the loop is claimed to implement; the theorems below prove
the loop equal to it.  The remaining definitions are concrete inputs used by
witnesses and counterexamples. -/

/-- First value among the scanned bodies that the loop routes to the key of
slot `k`; later bodies routed to the same key are ignored. -/
def firstHit (k : Nat) : List (List Char) → Option JVal
  | [] => none
  | b :: bs =>
    match blockFill b with
    | some kv => if kv.1 = secKey k then some kv.2 else firstHit k bs
    | none => firstHit k bs

/-- Tag lines the scanner's fence-opening pattern can accept: the text
between the three backticks and the line's newline must be whitespace,
optionally preceded by the literal `json`.  Any other tag line — `python`,
but also `js`, `json5`, `jsonp` — fails the pattern. -/
def tagAccepted (tag : List Char) : Bool :=
  tag.all isWs ||
    (match stripLead ("json".data) tag with
     | some r => r.all isWs
     | none => false)

/-- A transcript with two distinct well-formed blocks both carrying
`section: 3`. -/
def demoDupBlocks : List Char :=
  ("```json\n\x7b\"section\": 3, \"section_title\": \"A\"\x7d\n```\nprose\n```json\n\x7b\"section\": 3, \"section_title\": \"B\"\x7d\n```").data

/-- A transcript whose only fenced block has a body that is not JSON. -/
def demoNoBlocks : List Char :=
  ("hello ```json\nnot json\n``` world").data

/-- A transcript whose section-1 candidate block carries the validator
sentinel, and which also contains a valid section-2 block. -/
def demoSentinel : List Char :=
  ("[FinancialDocumentsAgent] intro ```json\n\x7b\"section\": 1, \"note\": \"OUTPUT STRUCTURE here\"\x7d\n```\n```json\n\x7b\"section\": 2\x7d\n```").data

/-- The section-1 candidate body captured from `demoSentinel`. -/
def demoSentinelBody : List Char :=
  ("\x7b\"section\": 1, \"note\": \"OUTPUT STRUCTURE here\"\x7d").data

/-- A single well-formed fenced block whose language tag is `python` and
whose body is valid JSON claiming `section: 2`. -/
def demoPythonBody : List Char :=
  ("\x7b\"section\": 2, \"section_title\": \"News\"\x7d").data

/-- The `demoPythonBody` block wrapped in a `python`-tagged fence. -/
def demoPython : List Char :=
  ("```".data) ++ ("python".data) ++ '\n' :: demoPythonBody ++ '\n' :: ("```".data)

/-- Initial fields that themselves define an `id` (used against C6/C10). -/
def demoIdWf : List (List Char × JVal) :=
  [(("id".data), JVal.str ("x".data))]

/-- Initial fields without `id` or `messages` keys. -/
def demoPlainWf : List (List Char × JVal) :=
  [(("company".data), JVal.str ("ACME".data))]

/-- A store holding one record with identifier `a` and an empty message
log. -/
def demoStoreA : List JVal :=
  [JVal.obj [(("id".data), JVal.str ("a".data)),
             (("messages".data), JVal.arr [])]]

/-- A message without a timestamp. -/
def demoMsg : List (List Char × JVal) :=
  [(("type".data), JVal.str ("system".data)),
   (("message".data), JVal.str ("hello".data))]

/-- A store holding one record with identifier `a` already in the terminal
status `completed`. -/
def demoStoreDone : List JVal :=
  [JVal.obj [(("id".data), JVal.str ("a".data)),
             (("status".data), JVal.str ("completed".data))]]

/-! ## Helper lemmas for the extractor -/

theorem keyIdx_secKey {k : Nat} (h1 : 1 ≤ k) (h8 : k ≤ 8) :
    keyIdx (secKey k) = some k := by
  interval_cases k <;> rfl

theorem keyIdx_inv {key : List Char} {i : Nat} (h : keyIdx key = some i) :
    key = secKey i := by
  unfold keyIdx at h
  split_ifs at h <;> simp_all

theorem keyIdx_bounds {key : List Char} {i : Nat} (h : keyIdx key = some i) :
    1 ≤ i ∧ i ≤ 8 := by
  unfold keyIdx at h
  split_ifs at h <;> simp_all <;> omega

theorem get_setSlotIdx (s : Sections) (v : JVal) {i k : Nat}
    (hi1 : 1 ≤ i) (hi8 : i ≤ 8) (hk1 : 1 ≤ k) (hk8 : k ≤ 8) :
    (setSlotIdx s i v).get k =
      if i = k then (if (s.get k).isNone then some v else s.get k) else s.get k := by
  interval_cases i <;> interval_cases k <;>
    simp only [setSlotIdx, Sections.get] <;>
    (split <;> simp_all [Sections.get])

theorem get_setSlot_self (s : Sections) (v : JVal) {k : Nat}
    (h1 : 1 ≤ k) (h8 : k ≤ 8) :
    (setSlot s (secKey k) v).get k = if (s.get k).isNone then some v else s.get k := by
  unfold setSlot
  rw [keyIdx_secKey h1 h8]
  rw [get_setSlotIdx s v h1 h8 h1 h8]
  simp

theorem get_setSlot_ne (s : Sections) (v : JVal) {key : List Char} {k : Nat}
    (h1 : 1 ≤ k) (h8 : k ≤ 8) (hne : ¬ key = secKey k) :
    (setSlot s key v).get k = s.get k := by
  unfold setSlot
  cases hidx : keyIdx key with
  | none => rfl
  | some i =>
    have hkey := keyIdx_inv hidx
    obtain ⟨hi1, hi8⟩ := keyIdx_bounds hidx
    have hik : ¬ i = k := fun h => hne (h ▸ hkey)
    rw [get_setSlotIdx s v hi1 hi8 h1 h8]
    simp [hik]

theorem fillLoop_get (k : Nat) (h2 : 1 ≤ k) (h8 : k ≤ 8) :
    ∀ (bs : List (List Char)) (s : Sections),
      (fillLoop bs s).get k =
        match s.get k with
        | some v => some v
        | none => firstHit k bs := by
  intro bs
  induction bs with
  | nil =>
    intro s
    cases h : s.get k <;> simp [fillLoop, firstHit, h]
  | cons b bs ih =>
    intro s
    rw [show fillLoop (b :: bs) s = fillLoop bs (processBlock s b) from rfl, ih]
    cases hbf : blockFill b with
    | none => simp only [processBlock, hbf, firstHit]
    | some kv =>
      by_cases hkey : kv.1 = secKey k
      · simp only [processBlock, hbf, firstHit, hkey, if_true]
        rw [get_setSlot_self s kv.2 h2 h8]
        cases hsk : s.get k <;> simp [hsk]
      · simp only [processBlock, hbf, firstHit, hkey, if_false]
        rw [get_setSlot_ne s kv.2 h2 h8 hkey]

theorem jsStrToNumber_one : jsStrToNumber ['1'] = some 1 := by decide

theorem jsToStringF_str (fuel : Nat) (s : List Char) :
    jsToStringF fuel (.str s) = s := by
  simp [jsToStringF]

theorem jsToStringF_num (fuel : Nat) (q : ℚ) :
    jsToStringF fuel (.num q) = jsNumToString q := by
  simp [jsToStringF]

theorem toStr_ne_one {fuel : Nat} {sv : JVal}
    (hg : (jsGe (jsToNumberF fuel sv) 2 && jsLe (jsToNumberF fuel sv) 8) = true) :
    ¬ jsToStringF fuel sv = ['1'] := by
  intro h
  cases sv with
  | null =>
    rw [show jsToNumberF fuel JVal.null = some 0 from rfl] at hg
    simp only [jsGe, Bool.and_eq_true, decide_eq_true_eq] at hg
    exact absurd hg.1 (by norm_num)
  | bool b =>
    cases b <;>
      simp only [jsToNumberF, jsGe, Bool.and_eq_true, decide_eq_true_eq] at hg <;>
      exact absurd hg.1 (by norm_num)
  | obj fs => simp [jsToNumberF, jsGe] at hg
  | str s =>
    rw [jsToStringF_str] at h
    rw [show jsToNumberF fuel (JVal.str s) = jsStrToNumber s from rfl, h,
      jsStrToNumber_one] at hg
    simp only [jsGe, Bool.and_eq_true, decide_eq_true_eq] at hg
    exact absurd hg.1 (by norm_num)
  | arr xs =>
    rw [show jsToNumberF fuel (JVal.arr xs) =
      jsStrToNumber (jsToStringF fuel (JVal.arr xs)) from rfl, h, jsStrToNumber_one] at hg
    simp only [jsGe, Bool.and_eq_true, decide_eq_true_eq] at hg
    exact absurd hg.1 (by norm_num)
  | num q =>
    rw [show jsToNumberF fuel (JVal.num q) = some q from rfl] at hg
    simp only [jsGe, jsLe, Bool.and_eq_true, decide_eq_true_eq] at hg
    obtain ⟨h2, h8⟩ := hg
    rw [jsToStringF_num] at h
    unfold jsNumToString at h
    by_cases hden : q.den = 1
    · rw [if_pos hden] at h
      have hq : (q.num : ℚ) = q := Rat.coe_int_num_of_den_eq_one hden
      have hn2 : (2 : ℤ) ≤ q.num := by rw [← hq] at h2; exact_mod_cast h2
      have hn8 : q.num ≤ 8 := by rw [← hq] at h8; exact_mod_cast h8
      have hnn : ¬ q.num < 0 := by omega
      rw [show intStr q.num =
        if q.num < 0 then '-' :: natStr q.num.natAbs else natStr q.num.toNat from rfl,
        if_neg hnn] at h
      have h2' : 2 ≤ q.num.toNat := by omega
      have h8' : q.num.toNat ≤ 8 := by omega
      set n := q.num.toNat with hn
      clear_value n
      interval_cases n <;> revert h <;> decide
    · rw [if_neg hden] at h
      have hpos : ¬ q < 0 := by
        intro hlt
        have h2q : (2 : ℚ) ≤ q := h2
        linarith
      rw [if_neg hpos] at h
      have hmem : '.' ∈ ([] : List Char) ++ natStr (q.num.natAbs / q.den) ++
          '.' :: fracDigitsAux 20 (q.num.natAbs % q.den) q.den := by simp
      rw [h] at hmem
      simp at hmem

theorem blockFill_key_ne_one {b : List Char} {kv : List Char × JVal}
    (h : blockFill b = some kv) : ¬ kv.1 = secKey 1 := by
  unfold blockFill at h
  split at h
  next => simp at h
  next aj hb =>
    split at h
    next => simp at h
    next v hj =>
      split at h
      next => simp at h
      next sv hf =>
        split at h
        next hg =>
          intro hk
          apply toStr_ne_one hg
          have hkv : kv.1 = secKeyOf aj.length sv := by
            cases h; rfl
          rw [hkv] at hk
          unfold secKeyOf secKey at hk
          have hcan := List.append_cancel_left hk
          rw [hcan]
          rfl
        next hg => simp at h

theorem fillLoop_get_one : ∀ (bs : List (List Char)) (s : Sections),
    (fillLoop bs s).get 1 = s.get 1 := by
  intro bs
  induction bs with
  | nil => intro s; rfl
  | cons b bs ih =>
    intro s
    rw [show fillLoop (b :: bs) s = fillLoop bs (processBlock s b) from rfl, ih]
    cases hbf : blockFill b with
    | none => simp [processBlock, hbf]
    | some kv =>
      simp only [processBlock, hbf]
      exact get_setSlot_ne s kv.2 (by norm_num) (by norm_num) (blockFill_key_ne_one hbf)

theorem extractInit_get_one (t : List Char) :
    (extractInit t).get 1 = sec1Extract t := by
  unfold extractInit
  cases h : sec1Extract t <;> rfl

theorem extractInit_get_ge2 (t : List Char) {k : Nat} (h2 : 2 ≤ k) (h8 : k ≤ 8) :
    (extractInit t).get k = none := by
  unfold extractInit
  cases h : sec1Extract t <;> interval_cases k <;> rfl

theorem fillLoop_noop {bs : List (List Char)}
    (hb : ∀ b ∈ bs, blockFill b = none) : ∀ s, fillLoop bs s = s := by
  induction bs with
  | nil => intro s; rfl
  | cons b bs ih =>
    intro s
    have hhead : blockFill b = none := hb b (List.mem_cons_self b bs)
    rw [show fillLoop (b :: bs) s = fillLoop bs (processBlock s b) from rfl]
    rw [show processBlock s b = s from by simp [processBlock, hhead]]
    exact ih (fun x hx => hb x (List.mem_cons_of_mem b hx)) s

theorem stripLead_sound : ∀ {p l r : List Char}, stripLead p l = some r → l = p ++ r := by
  intro p
  induction p with
  | nil =>
    intro l r h
    simp [stripLead] at h
    rw [h]
    rfl
  | cons c p ih =>
    intro l r h
    cases l with
    | nil => simp [stripLead] at h
    | cons a l' =>
      rw [show stripLead (c :: p) (a :: l') =
        (if c = a then stripLead p l' else none) from rfl] at h
      by_cases hc : c = a
      · rw [if_pos hc] at h
        rw [← hc, ih h]
        rfl
      · rw [if_neg hc] at h
        simp at h

theorem nlSuffixes_tag_nil {tag rest : List Char} (hnl : ¬ '\n' ∈ tag)
    (hnw : tag.all isWs = false) :
    nlSuffixes (tag ++ '\n' :: rest) = [] := by
  induction tag with
  | nil => simp at hnw
  | cons c t ih =>
    have hcnl : ¬ c = '\n' := fun h => hnl (h ▸ List.mem_cons_self c t)
    rw [show nlSuffixes ((c :: t) ++ '\n' :: rest) =
      (if isWs c = true then
        (if c = '\n' then [t ++ '\n' :: rest] else []) ++ nlSuffixes (t ++ '\n' :: rest)
      else []) from rfl]
    by_cases hws : isWs c = true
    · have ht : t.all isWs = false := by
        rw [show (c :: t).all isWs = (isWs c && t.all isWs) from rfl, hws] at hnw
        simpa using hnw
      have hnl' : ¬ '\n' ∈ t := fun h => hnl (List.mem_cons_of_mem c h)
      rw [if_pos hws, if_neg hcnl, ih hnl' ht]
      rfl
    · rw [if_neg hws]

theorem json_split {tag rest r : List Char}
    (heq : tag ++ '\n' :: rest = ("json".data) ++ r) :
    ∃ tag2, tag = ("json".data) ++ tag2 ∧ r = tag2 ++ '\n' :: rest := by
  rw [show ("json".data) ++ r = 'j' :: 's' :: 'o' :: 'n' :: r from rfl] at heq
  cases tag with
  | nil =>
    injection heq with h1 _
    exact absurd h1 (by decide)
  | cons a t1 =>
    cases t1 with
    | nil =>
      injection heq with _ h2
      injection h2 with h3 _
      exact absurd h3 (by decide)
    | cons b t2 =>
      cases t2 with
      | nil =>
        injection heq with _ h2
        injection h2 with _ h3
        injection h3 with h4 _
        exact absurd h4 (by decide)
      | cons c3 t3 =>
        cases t3 with
        | nil =>
          injection heq with _ h2
          injection h2 with _ h3
          injection h3 with _ h4
          injection h4 with h5 _
          exact absurd h5 (by decide)
        | cons d t4 =>
          injection heq with ha h2
          injection h2 with hb h3
          injection h3 with hc h4
          injection h4 with hd h5
          subst ha
          subst hb
          subst hc
          subst hd
          exact ⟨t4, rfl, h5.symm⟩


/-! ## Claim theorems for the extractor -/

/-- C2: for every transcript and every section index in [2,8], the slot the
extractor computes equals the payload of the first scanned block routed to
that section's key — the first-encountered block wins and every later
duplicate for the same section is discarded — and a second extraction call
on the same transcript (through the module cache) returns the same result
as the first. -/
theorem c2_duplicate_sections_first_wins (t : List Char) (k : Nat)
    (h2 : 2 ≤ k) (h8 : k ≤ 8) :
    (extractSections t).get k = firstHit k (scanAll t) ∧
    (parseCall t (parseCall t none).1).2 = (parseCall t none).2 := by
  constructor
  · rw [show extractSections t = fillLoop (scanAll t) (extractInit t) from rfl,
      fillLoop_get k (by omega) h8, extractInit_get_ge2 t h2 h8]
  · rfl

/-- Witness for C2 at section 3 of a transcript with two `section: 3`
blocks. -/
theorem c2_duplicate_sections_first_wins_witness :
    (2 ≤ 3 ∧ 3 ≤ 8) ∧
    ((extractSections demoDupBlocks).get 3 = firstHit 3 (scanAll demoDupBlocks) ∧
      (parseCall demoDupBlocks (parseCall demoDupBlocks none).1).2 =
        (parseCall demoDupBlocks none).2) :=
  ⟨⟨by norm_num, by norm_num⟩,
    c2_duplicate_sections_first_wins demoDupBlocks 3 (by norm_num) (by norm_num)⟩

/-- C3: extraction is a total function of the fetched text (parse-level
failures never escape it), and on any transcript in which the section-1
path produces nothing and every scanned block is rejected (no brace, parse
failure, or a `section` outside [2,8]), the resulting Section Document has
all eight slots absent. -/
theorem c3_zero_blocks_all_absent (t : List Char)
    (h1 : sec1Extract t = none)
    (hb : ∀ b ∈ scanAll t, blockFill b = none) :
    extractSections t = emptySections := by
  rw [show extractSections t = fillLoop (scanAll t) (extractInit t) from rfl,
    fillLoop_noop hb]
  unfold extractInit
  rw [h1]

/-- Witness for C3 on a transcript whose single fenced block is not JSON. -/
theorem c3_zero_blocks_all_absent_witness :
    (sec1Extract demoNoBlocks = none ∧
      ∀ b ∈ scanAll demoNoBlocks, blockFill b = none) ∧
    extractSections demoNoBlocks = emptySections := by
  have h1 : sec1Extract demoNoBlocks = none := rfl
  have hscan : scanAll demoNoBlocks = [("not json".data)] := rfl
  have hb : ∀ b ∈ scanAll demoNoBlocks, blockFill b = none := by
    intro b hmem
    rw [hscan] at hmem
    have hbeq : b = ("not json".data) := by simpa using hmem
    rw [hbeq]
    rfl
  exact ⟨⟨h1, hb⟩, c3_zero_blocks_all_absent demoNoBlocks h1 hb⟩

/-- C4: when the section-1 candidate body (captured by the agent-tag regex)
contains the validator sentinel, slot 1 of the result is absent — even if
that body is valid JSON — and the sections-2-to-8 extraction is unaffected:
each of those slots still equals the first scanned block routed to it. -/
theorem c4_sentinel_keeps_section1_absent (t body : List Char)
    (hm : sec1Match t = some body) (hs : containsSub body sentinel = true) :
    (extractSections t).get 1 = none ∧
    (∀ k, 2 ≤ k → k ≤ 8 → (extractSections t).get k = firstHit k (scanAll t)) := by
  have h1 : sec1Extract t = none := by
    simp only [sec1Extract, hm]
    rw [if_pos hs]
  constructor
  · rw [show extractSections t = fillLoop (scanAll t) (extractInit t) from rfl,
      fillLoop_get_one, extractInit_get_one, h1]
  · intro k hk2 hk8
    rw [show extractSections t = fillLoop (scanAll t) (extractInit t) from rfl,
      fillLoop_get k (by omega) hk8, extractInit_get_ge2 t hk2 hk8]

/-- Witness for C4 on a transcript whose section-1 candidate is a valid
JSON object carrying the sentinel. -/
theorem c4_sentinel_keeps_section1_absent_witness :
    (sec1Match demoSentinel = some demoSentinelBody ∧
      containsSub demoSentinelBody sentinel = true ∧
      (jsonParse demoSentinelBody).isSome = true) ∧
    ((extractSections demoSentinel).get 1 = none ∧
      (∀ k, 2 ≤ k → k ≤ 8 →
        (extractSections demoSentinel).get k = firstHit k (scanAll demoSentinel))) :=
  ⟨⟨rfl, by decide, rfl⟩,
    c4_sentinel_keeps_section1_absent demoSentinel demoSentinelBody rfl (by decide)⟩

/-- C8 (amended): the extractor memoizes its Section Document — a call that
finds the cache filled returns the cached value unchanged, whatever text a
fresh fetch would have produced, and the first call fills the cache — but
the module exports no cache-clearing operation: no exported call ever
empties a filled cache, which persists for the lifetime of the process. -/
theorem c8_cache_never_cleared :
    (∀ (t : List Char) (d : Sections), parseCall t (some d) = (some d, d)) ∧
    (∀ t : List Char, parseCall t none = (some (extractSections t), extractSections t)) ∧
    (∀ (op : ParserApi) (d : Sections), apiStep op (some d) = some d) := by
  refine ⟨fun t d => rfl, fun t => rfl, fun op d => ?_⟩
  cases op <;> rfl

/-- C8 counterexample: no exported operation of the parser module clears a
filled cache, so the claimed cache-clearing operation does not exist. -/
theorem c8_counterexample :
    ¬ ∃ op : ParserApi, apiStep op (some emptySections) = none := by
  rintro ⟨op, h⟩
  cases op <;> simp [apiStep, parseCall] at h

/-- C9 counterexample: a well-formed fenced block whose language tag is
`python` and whose body is valid JSON with `section: 2` is not picked up by
the scanner at all — no candidate is produced, no parse is attempted, and
the extraction result is entirely absent. -/
theorem c9_counterexample :
    demoPython = ("```".data) ++ ("python".data) ++ '
' :: demoPythonBody ++
      '
' :: ("```".data) ∧
    (jsonParse demoPythonBody).isSome = true ∧
    scanAll demoPython = [] ∧
    extractSections demoPython = emptySections :=
  ⟨rfl, rfl, rfl, rfl⟩

/-- C9 (amended): the scanner treats a fenced block as a candidate only
when the text between the three-backtick delimiter and the line's newline
is the literal `json` optionally followed by whitespace, or whitespace
alone (no tag): for every tag line of any other shape — `python`, but also
`js`, `json5` or `jsonp` — the opening pattern does not match at that
fence, whatever follows; `json`-tagged and untagged blocks are captured. -/
theorem c9_only_json_or_untagged_fences (tag rest : List Char)
    (hnl : ¬ '\n' ∈ tag) (hacc : tagAccepted tag = false) :
    fenceMatchAt (("```".data) ++ tag ++ '\n' :: rest) = none ∧
    fenceMatchAt (("```json\n".data) ++ demoPythonBody ++ ("\n```".data)) =
      some (demoPythonBody, []) ∧
    fenceMatchAt (("```\n".data) ++ demoPythonBody ++ ("\n```".data)) =
      some (demoPythonBody, []) := by
  refine ⟨?_, rfl, rfl⟩
  have hor := hacc
  unfold tagAccepted at hor
  obtain ⟨h1, h2⟩ := Bool.or_eq_false_iff.mp hor
  have hstrip : stripLead ("```".data) (("```".data) ++ tag ++ '\n' :: rest) =
      some (tag ++ '\n' :: rest) := rfl
  unfold fenceMatchAt
  simp only [hstrip]
  cases hj : stripLead ("json".data) (tag ++ '\n' :: rest) with
  | none =>
    simp only [hj]
    rw [nlSuffixes_tag_nil hnl h1]
    rfl
  | some r =>
    simp only [hj]
    obtain ⟨tag2, htag, hr⟩ := json_split (stripLead_sound hj)
    have hj2 : stripLead ("json".data) tag = some tag2 := by
      rw [htag]
      rfl
    rw [hj2] at h2
    have hnl2 : ¬ '\n' ∈ tag2 := by
      intro hmem
      apply hnl
      rw [htag]
      exact List.mem_append_right _ hmem
    rw [hr, nlSuffixes_tag_nil hnl2 h2]
    rfl

/-- Witness for the amended C9 at the tags `python` and `json5` (the latter
begins with `json` but is still rejected by the scanner). -/
theorem c9_only_json_or_untagged_fences_witness :
    ((¬ '\n' ∈ ("python".data) ∧ tagAccepted ("python".data) = false) ∧
      (¬ '\n' ∈ ("json5".data) ∧ tagAccepted ("json5".data) = false)) ∧
    (fenceMatchAt (("```".data) ++ ("python".data) ++ '\n' :: ("X\n```".data)) =
      none ∧
     fenceMatchAt (("```".data) ++ ("json5".data) ++ '\n' :: ("X\n```".data)) =
      none) :=
  ⟨⟨⟨by decide, rfl⟩, ⟨by decide, rfl⟩⟩,
   ⟨(c9_only_json_or_untagged_fences ("python".data) ("X\n```".data)
      (by decide) rfl).1,
    (c9_only_json_or_untagged_fences ("json5".data) ("X\n```".data)
      (by decide) rfl).1⟩⟩

/-! ## Helper lemmas for the workflow store -/

theorem lookupLast_append (k : List Char) (a b : List (List Char × JVal)) :
    lookupLast k (a ++ b) =
      match lookupLast k b with
      | some v => some v
      | none => lookupLast k a := by
  induction a with
  | nil =>
    cases h : lookupLast k b <;> simp [lookupLast, h]
  | cons p a ih =>
    obtain ⟨k', v⟩ := p
    have step : lookupLast k (((k', v) :: a) ++ b) =
        match lookupLast k (a ++ b) with
        | some r => some r
        | none => if k' = k then some v else none := rfl
    rw [step, ih]
    cases h : lookupLast k b <;> cases h2 : lookupLast k a <;>
      simp [lookupLast, h, h2]

theorem lookupLast_removeKey {k k' : List Char} (hne : ¬ k = k')
    (fs : List (List Char × JVal)) :
    lookupLast k (removeKey k' fs) = lookupLast k fs := by
  induction fs with
  | nil => rfl
  | cons p fs ih =>
    obtain ⟨a, b⟩ := p
    by_cases ha : a = k'
    · have hak : ¬ a = k := by
        intro h
        exact hne (by rw [← h, ha])
      rw [show removeKey k' ((a, b) :: fs) = removeKey k' fs from by
        simp [removeKey, ha], ih]
      rw [show lookupLast k ((a, b) :: fs) =
        match lookupLast k fs with
        | some r => some r
        | none => if a = k then some b else none from rfl]
      cases h2 : lookupLast k fs <;> simp [hak]
    · rw [show removeKey k' ((a, b) :: fs) = (a, b) :: removeKey k' fs from by
        simp [removeKey, ha]]
      rw [show lookupLast k ((a, b) :: removeKey k' fs) =
        match lookupLast k (removeKey k' fs) with
        | some r => some r
        | none => if a = k then some b else none from rfl, ih]
      rw [show lookupLast k ((a, b) :: fs) =
        match lookupLast k fs with
        | some r => some r
        | none => if a = k then some b else none from rfl]

theorem lookupLast_setField_self (fs : List (List Char × JVal))
    (k : List Char) (v : JVal) :
    lookupLast k (setField fs k v) = some v := by
  unfold setField
  rw [lookupLast_append]
  simp [lookupLast]

theorem lookupLast_setField_ne (fs : List (List Char × JVal))
    {k k' : List Char} (v : JVal) (hne : ¬ k = k') :
    lookupLast k (setField fs k' v) = lookupLast k fs := by
  unfold setField
  rw [lookupLast_append]
  have h1 : lookupLast k [(k', v)] = none := by
    simp [lookupLast]
    exact fun h => hne h.symm
  rw [h1]
  exact lookupLast_removeKey hne fs

theorem lookupLast_normMessages {k : List Char}
    (hk : ¬ k = ("messages".data)) (fs : List (List Char × JVal)) :
    lookupLast k (normMessages fs) = lookupLast k fs := by
  unfold normMessages
  split
  · exact lookupLast_setField_ne fs _ hk
  · rfl

theorem idEq_lookup {w : JVal} {wid : List Char} (h : idEq w wid = true) :
    lookupLast ("id".data) (wFields w) = some (.str wid) := by
  cases w with
  | obj fs =>
    simp only [idEq, getField] at h
    cases hl : lookupLast ("id".data) fs with
    | none => rw [hl] at h; simp at h
    | some v =>
      rw [hl] at h
      cases v <;> simp at h
      subst h
      exact hl
  | null => simp [idEq, getField] at h
  | bool b => simp [idEq, getField] at h
  | num q => simp [idEq, getField] at h
  | str s => simp [idEq, getField] at h
  | arr xs => simp [idEq, getField] at h

theorem idEq_of_lookup {fs : List (List Char × JVal)} {wid : List Char}
    (h : lookupLast ("id".data) fs = some (.str wid)) :
    idEq (.obj fs) wid = true := by
  simp [idEq, getField, h]

theorem findWf_eq_none {wid : List Char} {store : List JVal}
    (h : ∀ w ∈ store, idEq w wid = false) : findWf wid store = none := by
  induction store with
  | nil => rfl
  | cons u rest ih =>
    have hu := h u (List.mem_cons_self u rest)
    simp [findWf, hu]
    exact ih fun w hw => h w (List.mem_cons_of_mem u hw)

theorem findWf_append (wid : List Char) (a b : List JVal) :
    findWf wid (a ++ b) =
      match findWf wid a with
      | some w => some w
      | none => findWf wid b := by
  induction a with
  | nil => cases h : findWf wid b <;> simp [findWf, h]
  | cons u a ih =>
    by_cases hu : idEq u wid = true
    · simp [findWf, hu]
    · rw [show findWf wid ((u :: a) ++ b) =
        (if idEq u wid = true then some u else findWf wid (a ++ b)) from rfl]
      rw [if_neg hu, ih]
      rw [show findWf wid (u :: a) =
        (if idEq u wid = true then some u else findWf wid a) from rfl, if_neg hu]

theorem findWf_some_idEq {wid : List Char} {store : List JVal} {w : JVal}
    (h : findWf wid store = some w) : idEq w wid = true := by
  induction store with
  | nil => simp [findWf] at h
  | cons u rest ih =>
    by_cases hu : idEq u wid = true
    · simp [findWf, hu] at h
      subst h
      exact hu
    · simp only [findWf] at h
      rw [if_neg hu] at h
      exact ih h

theorem findWf_replaceWf {wid : List Char} {store : List JVal} {w w' : JVal}
    (hf : findWf wid store = some w) (h' : idEq w' wid = true) :
    findWf wid (replaceWf wid w' store) = some w' := by
  induction store with
  | nil => simp [findWf] at hf
  | cons u rest ih =>
    by_cases hu : idEq u wid = true
    · simp [replaceWf, findWf, hu, h']
    · rw [show replaceWf wid w' (u :: rest) =
        (if idEq u wid = true then w' :: rest else u :: replaceWf wid w' rest) from rfl,
        if_neg hu]
      rw [show findWf wid (u :: replaceWf wid w' rest) =
        (if idEq u wid = true then some u
          else findWf wid (replaceWf wid w' rest)) from rfl, if_neg hu]
      rw [show findWf wid (u :: rest) =
        (if idEq u wid = true then some u else findWf wid rest) from rfl,
        if_neg hu] at hf
      exact ih hf

theorem genId_ne_nil (date rand : List Char) : ¬ genId date rand = [] := by
  intro h
  have hl := congrArg List.length h
  simp [genId, List.length_append] at hl


/-! ## Claim theorems for the workflow store -/

/-- C1: `createWorkflow` always reports success; when the remote call fails
it returns the locally synthesized identifier `workflow-<date>-<random>`,
which is never empty; when the remote call succeeds it forwards the
backend's identifier, which is non-empty whenever the backend supplies a
non-empty one (the backend is an external service honouring the interface
contract). -/
theorem c1_create_returns_nonempty_id (remote : RemoteCreate)
    (wf : List (List Char × JVal)) (date rand now : List Char)
    (store : List JVal) :
    (createWorkflow remote wf date rand now store).1.1 = true ∧
    (remote = .err →
      (createWorkflow remote wf date rand now store).1.2 = genId date rand ∧
      ¬ (createWorkflow remote wf date rand now store).1.2 = []) ∧
    (∀ wid, remote = .ok wid →
      (createWorkflow remote wf date rand now store).1.2 = wid ∧
      (¬ wid = [] → ¬ (createWorkflow remote wf date rand now store).1.2 = [])) := by
  refine ⟨?_, ?_, ?_⟩
  · cases remote <;> rfl
  · intro h
    subst h
    exact ⟨rfl, genId_ne_nil date rand⟩
  · intro wid h
    subst h
    exact ⟨rfl, fun hne => hne⟩

/-- Witness for C1 on the degraded-remote path with concrete inputs. -/
theorem c1_create_returns_nonempty_id_witness :
    ((RemoteCreate.err : RemoteCreate) = .err) ∧
    ((createWorkflow .err demoPlainWf ("2025-01-01".data) ("abc123".data)
        ("2025-01-01T00:00:00Z".data) []).1.2 =
      genId ("2025-01-01".data) ("abc123".data) ∧
      ¬ (createWorkflow .err demoPlainWf ("2025-01-01".data) ("abc123".data)
        ("2025-01-01T00:00:00Z".data) []).1.2 = []) :=
  ⟨rfl, (c1_create_returns_nonempty_id .err demoPlainWf ("2025-01-01".data)
    ("abc123".data) ("2025-01-01T00:00:00Z".data) []).2.1 rfl⟩

/-- C10: the locally persisted document is the caller's fields spread over
the synthesized defaults, so any caller binding (for `id`, `status`,
`messages`, or any other key) wins on lookup, and a caller-supplied `id`
makes the stored record's `id` differ from the returned identifier. -/
theorem c10_caller_fields_override (wf : List (List Char × JVal))
    (date rand now : List Char) (store : List JVal) :
    saveToLocalStorage wf date rand now store =
      (genId date rand,
        store ++ [JVal.obj (defaultFields (genId date rand) now ++ wf)]) ∧
    (∀ k v, lookupLast k wf = some v →
      getField k (JVal.obj (defaultFields (genId date rand) now ++ wf)) = some v) ∧
    (getField ("id".data)
        (JVal.obj (defaultFields (genId date rand) now ++ demoIdWf)) =
      some (JVal.str ("x".data)) ∧
      ¬ ("x".data) = genId date rand) := by
  refine ⟨rfl, ?_, rfl, ?_⟩
  · intro k v h
    show lookupLast k (defaultFields (genId date rand) now ++ wf) = some v
    rw [lookupLast_append, h]
  · intro h
    have hl := congrArg List.length h
    simp [genId, List.length_append] at hl

/-- Witness for C10: a caller-supplied `id` overrides the synthesized one. -/
theorem c10_caller_fields_override_witness :
    (lookupLast ("id".data) demoIdWf = some (JVal.str ("x".data))) ∧
    getField ("id".data)
      (JVal.obj (defaultFields
        (genId ("2025-01-01".data) ("abc123".data)) ("T0".data) ++ demoIdWf)) =
      some (JVal.str ("x".data)) :=
  ⟨rfl, (c10_caller_fields_override demoIdWf ("2025-01-01".data) ("abc123".data)
    ("T0".data) []).2.1 ("id".data) (JVal.str ("x".data)) rfl⟩

/-- C6 counterexample: initial fields that carry their own `id` make the
stored record's `id` differ from the returned identifier, so the subsequent
degraded `getWorkflow` with the returned identifier finds nothing — not a
record with that `id` and empty `messages`. -/
theorem c6_counterexample :
    (createWorkflow .err demoIdWf ("2025-01-01".data) ("abc123".data)
        ("2025-01-01T00:00:00Z".data) []).1.2 =
      genId ("2025-01-01".data) ("abc123".data) ∧
    getWorkflow .err (genId ("2025-01-01".data) ("abc123".data))
      (createWorkflow .err demoIdWf ("2025-01-01".data) ("abc123".data)
        ("2025-01-01T00:00:00Z".data) []).2 = none :=
  ⟨rfl, rfl⟩

/-- C6 (amended): for initial fields that define neither `id` nor
`messages`, and a synthesized identifier that does not collide with a
record already in the local store, the degraded `getWorkflow` on the
returned identifier yields the stored record, whose `id` equals that
identifier and whose `messages` is the empty sequence. -/
theorem c6_get_after_create_degraded (wf : List (List Char × JVal))
    (date rand now : List Char) (store : List JVal)
    (hid : lookupLast ("id".data) wf = none)
    (hmsg : lookupLast ("messages".data) wf = none)
    (hfresh : ∀ w ∈ store, idEq w (genId date rand) = false) :
    (createWorkflow .err wf date rand now store).1.2 = genId date rand ∧
    getWorkflow .err (genId date rand)
        (createWorkflow .err wf date rand now store).2 =
      some (JVal.obj (defaultFields (genId date rand) now ++ wf)) ∧
    getField ("id".data) (JVal.obj (defaultFields (genId date rand) now ++ wf)) =
      some (.str (genId date rand)) ∧
    getField ("messages".data)
        (JVal.obj (defaultFields (genId date rand) now ++ wf)) =
      some (.arr []) := by
  have hiddoc : getField ("id".data)
      (JVal.obj (defaultFields (genId date rand) now ++ wf)) =
      some (.str (genId date rand)) := by
    show lookupLast _ (_ ++ wf) = _
    rw [lookupLast_append, hid]
    rfl
  have hmsgdoc : getField ("messages".data)
      (JVal.obj (defaultFields (genId date rand) now ++ wf)) =
      some (.arr []) := by
    show lookupLast _ (_ ++ wf) = _
    rw [lookupLast_append, hmsg]
    rfl
  refine ⟨rfl, ?_, hiddoc, hmsgdoc⟩
  show findWf (genId date rand)
    (store ++ [JVal.obj (defaultFields (genId date rand) now ++ wf)]) = _
  rw [findWf_append, findWf_eq_none hfresh]
  have hidEq : idEq (JVal.obj (defaultFields (genId date rand) now ++ wf))
      (genId date rand) = true := by
    unfold idEq
    rw [hiddoc]
    simp
  simp [findWf, hidEq]

/-- Witness for the amended C6 with plain initial fields and an empty
store. -/
theorem c6_get_after_create_degraded_witness :
    (lookupLast ("id".data) demoPlainWf = none ∧
      lookupLast ("messages".data) demoPlainWf = none) ∧
    getWorkflow .err (genId ("2025-01-01".data) ("abc123".data))
        (createWorkflow .err demoPlainWf ("2025-01-01".data) ("abc123".data)
          ("T0".data) []).2 =
      some (JVal.obj (defaultFields
        (genId ("2025-01-01".data) ("abc123".data)) ("T0".data) ++ demoPlainWf)) :=
  ⟨⟨rfl, rfl⟩, (c6_get_after_create_degraded demoPlainWf ("2025-01-01".data)
    ("abc123".data) ("T0".data) [] rfl rfl (by simp)).2.1⟩

/-- C5: in the degraded-remote scenario, `addMessage` reports failure
exactly when the record is absent from the local store; when the record is
there (with an appendable `messages` field), the call succeeds, the record
visible through a subsequent degraded `getWorkflow` carries the message
appended at the end, and the appended message carries a `timestamp` — equal
to the service clock value whenever the caller omitted one. -/
theorem c5_append_message_fallback (wid : List Char)
    (msg : List (List Char × JVal)) (now : List Char) (store : List JVal) :
    (findWf wid store = none →
      addMessage .err wid msg now store = .res false store) ∧
    (∀ w, findWf wid store = some w →
      ¬ addMessage .err wid msg now store = .res false store) ∧
    (∀ w ms, findWf wid store = some w →
      lookupLast ("messages".data) (normMessages (wFields w)) = some (.arr ms) →
      (addMessage .err wid msg now store =
        .res true (replaceWf wid
          (.obj (setField (normMessages (wFields w)) ("messages".data)
            (.arr (ms ++ [.obj (stampMsg msg now)])))) store) ∧
       getWorkflow .err wid (replaceWf wid
          (.obj (setField (normMessages (wFields w)) ("messages".data)
            (.arr (ms ++ [.obj (stampMsg msg now)])))) store) =
         some (.obj (setField (normMessages (wFields w)) ("messages".data)
            (.arr (ms ++ [.obj (stampMsg msg now)])))) ∧
       getField ("messages".data)
          (.obj (setField (normMessages (wFields w)) ("messages".data)
            (.arr (ms ++ [.obj (stampMsg msg now)])))) =
         some (.arr (ms ++ [.obj (stampMsg msg now)])) ∧
       (lookupLast ("timestamp".data) msg = none →
         lookupLast ("timestamp".data) (stampMsg msg now) = some (.str now)))) := by
  refine ⟨?_, ?_, ?_⟩
  · intro h
    simp [addMessage, appendFallback, h]
  · intro w h
    simp only [addMessage, appendFallback, h]
    cases hl : lookupLast ("messages".data) (normMessages (wFields w)) with
    | none => simp
    | some v => cases v <;> simp
  · intro w ms hf hl
    refine ⟨by simp [addMessage, appendFallback, hf, hl], ?_, ?_, ?_⟩
    · show findWf wid _ = _
      apply findWf_replaceWf hf
      apply idEq_of_lookup
      rw [lookupLast_setField_ne _ _ (by decide),
        lookupLast_normMessages (by decide)]
      exact idEq_lookup (findWf_some_idEq hf)
    · show lookupLast _ _ = _
      rw [lookupLast_setField_self]
    · intro hts
      show lookupLast _ (msg ++ _) = _
      rw [lookupLast_append]
      simp [lookupLast, stampMsg, hts]

/-- Witness for C5: a message without a timestamp appended in the degraded
scenario gets the service clock value as its timestamp. -/
theorem c5_append_message_fallback_witness :
    (findWf ("a".data) demoStoreA =
      some (JVal.obj [(("id".data), JVal.str ("a".data)),
        (("messages".data), JVal.arr [])]) ∧
      lookupLast ("timestamp".data) demoMsg = none) ∧
    lookupLast ("timestamp".data) (stampMsg demoMsg ("T1".data)) =
      some (JVal.str ("T1".data)) :=
  ⟨⟨rfl, rfl⟩,
    ((c5_append_message_fallback ("a".data) demoMsg ("T1".data) demoStoreA).2.2
      (JVal.obj [(("id".data), JVal.str ("a".data)),
        (("messages".data), JVal.arr [])]) []
      rfl rfl).2.2.2 rfl⟩

/-- C7 counterexample: a record already in the terminal status `completed`
is overwritten to `in_progress` by a later `updateWorkflowStatus` on the
fallback path — terminal statuses are not sticky. -/
theorem c7_counterexample :
    getField ("status".data)
        ((updateWorkflowStatus .err ("a".data) ("in_progress".data) ("T2".data)
          demoStoreDone).2.headD JVal.null) =
      some (JVal.str ("in_progress".data)) ∧
    ¬ (JVal.str ("in_progress".data)) = (JVal.str ("completed".data)) ∧
    (updateWorkflowStatus .err ("a".data) ("in_progress".data) ("T2".data)
      demoStoreDone).1 = true := by
  refine ⟨rfl, ?_, rfl⟩
  intro h
  injection h with h2
  exact absurd h2 (by decide)

/-- C7 (amended): the store enforces no transition discipline — on the
fallback path `updateWorkflowStatus` reports "not found" when the record is
absent, and otherwise unconditionally overwrites `status` with the
requested value (whatever the stored status was, terminal included) and
stamps `completedAt` with the clock value. -/
theorem c7_status_overwritten_unconditionally (wid status now : List Char)
    (store : List JVal) :
    (findWf wid store = none →
      updateWorkflowStatus .err wid status now store = (false, store)) ∧
    (∀ w, findWf wid store = some w →
      updateWorkflowStatus .err wid status now store =
        (true, replaceWf wid (.obj (setField (setField (wFields w)
          ("status".data) (.str status)) ("completedAt".data) (.str now))) store) ∧
      getField ("status".data) (.obj (setField (setField (wFields w)
          ("status".data) (.str status)) ("completedAt".data) (.str now))) =
        some (.str status) ∧
      getField ("completedAt".data) (.obj (setField (setField (wFields w)
          ("status".data) (.str status)) ("completedAt".data) (.str now))) =
        some (.str now)) := by
  constructor
  · intro h
    simp [updateWorkflowStatus, updateStatusFallback, h]
  · intro w h
    refine ⟨by simp [updateWorkflowStatus, updateStatusFallback, h], ?_, ?_⟩
    · show lookupLast _ _ = _
      rw [lookupLast_setField_ne _ _ (by decide), lookupLast_setField_self]
    · show lookupLast _ _ = _
      rw [lookupLast_setField_self]

/-- Witness for the amended C7 on the concrete completed record. -/
theorem c7_status_overwritten_unconditionally_witness :
    (findWf ("a".data) demoStoreDone =
      some (JVal.obj [(("id".data), JVal.str ("a".data)),
        (("status".data), JVal.str ("completed".data))])) ∧
    getField ("status".data)
        (.obj (setField (setField (wFields (JVal.obj [(("id".data),
          JVal.str ("a".data)), (("status".data), JVal.str ("completed".data))]))
          ("status".data) (.str ("in_progress".data)))
          ("completedAt".data) (.str ("T2".data)))) =
      some (.str ("in_progress".data)) :=
  ⟨rfl, ((c7_status_overwritten_unconditionally ("a".data) ("in_progress".data)
    ("T2".data) demoStoreDone).2
    (JVal.obj [(("id".data), JVal.str ("a".data)),
      (("status".data), JVal.str ("completed".data))]) rfl).2.1⟩

end Pitchbook